import Mathlib

/-!
Verification of the MorphoDepot repository/branch/PR reconciliation logic
(`MorphoDepot.py`, class `MorphoDepotLogic`).

Python string operations are embedded at the character-list level
(`List Char`), mirroring CPython semantics of `str.split`, `str.join`,
slicing, `str.isdigit`, and f-string formatting of integers.  Stateful
methods (the `loadIssue` branch synchronisation, `commitAndPush`, `gh`)
are embedded as pure functions from an explicit state to a new state plus
a trace of the external git / gh commands they issue; a raised Python
exception is an `Except.error` result.
-/

namespace MorphoDepot

/-- Decimal digit character for a value below ten (the last digit of the
f-string rendering of a non-negative integer). -/
def digitChar (n : Nat) : Char :=
  if n = 0 then '0' else if n = 1 then '1' else if n = 2 then '2'
  else if n = 3 then '3' else if n = 4 then '4' else if n = 5 then '5'
  else if n = 6 then '6' else if n = 7 then '7' else if n = 8 then '8' else '9'

/-- Fuel-driven helper for `natDigits`; the fuel only serves to make the
recursion structural so that terms reduce in the kernel. -/
def natDigitsAux : Nat → Nat → List Char
  | 0, _ => []
  | fuel + 1, n =>
    if n < 10 then [digitChar n]
    else natDigitsAux fuel (n / 10) ++ [digitChar (n % 10)]

/-- Decimal rendering of a natural number as a character list: the
embedding of Python f-string interpolation of an `int` (issue numbers and
release numbers are non-negative). -/
def natDigits (n : Nat) : List Char := natDigitsAux (n + 1) n

/-- Numeric value of a digit character, via its code point (the embedding
of Python `int` applied to a single digit). -/
def digitVal (c : Char) : Nat := c.toNat - 48

/-- Value of a decimal digit string: the embedding of the Python `int`
constructor on a string of digits. -/
def parseDigits (s : List Char) : Nat :=
  s.foldl (fun a c => 10 * a + digitVal c) 0

/-- Embedding of the Python `str.split(sep)` method for a one-character
separator: splits at every occurrence, keeping empty parts, and always
returns at least one part. -/
def pySplitChar (sep : Char) : List Char → List (List Char)
  | [] => [[]]
  | c :: rest =>
    let r := pySplitChar sep rest
    if c = sep then [] :: r
    else
      match r with
      | [] => [[c]]
      | p :: ps => (c :: p) :: ps

/-- Embedding of the Python `sep.join(parts)` method for a one-character
separator. -/
def pyJoinChar (sep : Char) : List (List Char) → List Char
  | [] => []
  | [p] => p
  | p :: ps => p ++ sep :: pyJoinChar sep ps

/-- Embedding of the Python slice `l[-2:]`: the last two elements, or the
whole list when it has fewer than two. -/
def lastTwo {α : Type} (l : List α) : List α := l.drop (l.length - 2)

/-- Embedding of the Python whitespace test used by `str.split()` with no
arguments. -/
def isPySpace (c : Char) : Bool :=
  c = ' ' || c = '\t' || c = '\n' || c = '\x0b' || c = '\x0c' || c = '\r'

/-- Accumulator-based helper for `pySplitWs` (structural recursion). -/
def pySplitWsAux : List Char → List Char → List (List Char)
  | [], acc => if acc = [] then [] else [acc.reverse]
  | c :: rest, acc =>
    if isPySpace c then
      if acc = [] then pySplitWsAux rest []
      else acc.reverse :: pySplitWsAux rest []
    else pySplitWsAux rest (c :: acc)

/-- Embedding of the Python `str.split()` method with no arguments:
splits on runs of whitespace and discards empty tokens. -/
def pySplitWs (l : List Char) : List (List Char) := pySplitWsAux l []

/-- Embedding of `command.replace("\n", " ")` in the `gh` method. -/
def pyReplaceNlSpace (s : List Char) : List Char :=
  s.map (fun c => if c = '\n' then ' ' else c)

/-- Embedding of the f-string `branchName = f"issue-{issueNumber}"` at the
top of `loadIssue`. -/
def branchNameFor (n : Nat) : String :=
  String.mk (['i', 's', 's', 'u', 'e', '-'] ++ natDigits n)

/-- Embedding of `branchName.split("-")[1]` in `commitAndPush` (the issue
number used in the PR body); Python indexing is partial, hence `Option`. -/
def extractIssueNumber (branchName : List Char) : Option (List Char) :=
  (pySplitChar '-' branchName).get? 1

/-- External git commands issued by the branch-synchronisation part of
`loadIssue`. -/
inductive GitCmd where
  | fetch (remote : String)
  | checkout (ref : String)
  | checkoutTrack (remoteBranch : String)
  | branchCreate (name : String)
  | pullRebase (remote : String) (branch : String)
deriving DecidableEq

/-- Embedding of the branch-resolution logic of `loadIssue`
(MorphoDepot.py lines 1544-1569): inputs are the local branch names, the
fetched origin branch ids (entries like `origin/issue-3`), and the issue
number; the output is the trace of git commands issued, in order. -/
def syncIssueBranch (localBranchNames originBranchIDs : List String)
    (issueNumber : Nat) : List GitCmd :=
  let branchName := branchNameFor issueNumber
  let originBranchID := "origin/" ++ branchName
  GitCmd.fetch "origin" ::
    (if branchName ∈ localBranchNames then
      [GitCmd.checkout branchName, GitCmd.pullRebase "upstream" "main"]
    else if originBranchID ∈ originBranchIDs then
      [GitCmd.checkoutTrack originBranchID]
    else
      [GitCmd.checkout "origin/main", GitCmd.branchCreate branchName,
       GitCmd.checkout branchName])

/-- Modelled from the spec wording of `syncIssueBranch` case 3, for
comparison with the code: identical to `syncIssueBranch` except that the
brand-new branch is created from the upstream main line, as the claim
states, instead of from `origin/main`. -/
def syncIssueBranchSpec (localBranchNames originBranchIDs : List String)
    (issueNumber : Nat) : List GitCmd :=
  let branchName := branchNameFor issueNumber
  let originBranchID := "origin/" ++ branchName
  GitCmd.fetch "origin" ::
    (if branchName ∈ localBranchNames then
      [GitCmd.checkout branchName, GitCmd.pullRebase "upstream" "main"]
    else if originBranchID ∈ originBranchIDs then
      [GitCmd.checkoutTrack originBranchID]
    else
      [GitCmd.checkout "upstream/main", GitCmd.branchCreate branchName,
       GitCmd.checkout branchName])

/-- An open pull request as seen through `prList`: base repository
(nameWithOwner), title, and draft flag. -/
structure PullReq where
  repo : String
  title : String
  isDraft : Bool
deriving DecidableEq

/-- Session state of `MorphoDepotLogic` relevant to `commitAndPush`: the
active annotation artifact, the active branch, the upstream repository
identifier, the branch names present on origin, the repositories carrying
the morphodepot topic (what `morphoRepos` returns), and the open pull
requests authored by the current user (what the `search prs` call sees). -/
structure SessionState where
  hasSegmentationNode : Bool
  activeBranch : String
  upstreamNameWithOwner : String
  originBranches : List String
  morphoRepoNames : List String
  openPRs : List PullReq
deriving DecidableEq

/-- Per-invocation external outcomes for one `commitAndPush` call: whether
`slicer.util.saveNode` succeeds, and the flag word of each `PushInfo`
entry returned by `remote.push`. -/
structure CallEnv where
  saveSucceeds : Bool
  pushInfoFlags : List Nat
deriving DecidableEq

namespace PushInfo

/-- GitPython PushInfo flag bit: push rejected locally. -/
def REJECTED : Nat := 8

/-- GitPython PushInfo flag bit: push rejected by the remote. -/
def REMOTE_REJECTED : Nat := 16

/-- GitPython PushInfo flag bit: remote failure. -/
def REMOTE_FAILURE : Nat := 32

/-- GitPython PushInfo flag bit: error. -/
def ERROR : Nat := 1024

end PushInfo

/-- Embedding of the per-entry failure test in `commitAndPush`: an entry
fails when any of the four inspected bits is set in its flag word. -/
def pushInfoFailed (flags : Nat) : Bool :=
  decide (flags &&& PushInfo.REJECTED ≠ 0) ||
  decide (flags &&& PushInfo.REMOTE_REJECTED ≠ 0) ||
  decide (flags &&& PushInfo.REMOTE_FAILURE ≠ 0) ||
  decide (flags &&& PushInfo.ERROR ≠ 0)

/-- Embedding of the double loop over `pushInfoList` and the four flags:
the push failed when some entry carries some inspected flag. -/
def anyPushFailure (l : List Nat) : Bool := l.any pushInfoFailed

/-- Embedding of `prList` restricted to what `issuePR` consumes: the open
PRs authored by the current user whose base repository carries the
morphodepot topic (the `repoNamesWithOwner` filter in `prList`). -/
def prListModel (s : SessionState) : List PullReq :=
  s.openPRs.filter (fun pr => decide (pr.repo ∈ s.morphoRepoNames))

/-- The match test of the `issuePR` loop: base repository is upstream and
the PR title is the active branch name. -/
def prMatch (s : SessionState) (pr : PullReq) : Prop :=
  pr.repo = s.upstreamNameWithOwner ∧ pr.title = s.activeBranch

instance (s : SessionState) (pr : PullReq) : Decidable (prMatch s pr) := by
  unfold prMatch; infer_instance

/-- Embedding of `issuePR`: iterates over the PR list keeping the last
entry whose base repository is upstream and whose title equals the active
branch name. -/
def issuePR (s : SessionState) : Option PullReq :=
  (prListModel s).foldl
    (fun acc pr => if prMatch s pr then some pr else acc) none

/-- Side effects performed by `commitAndPush`, in program order. -/
inductive Effect where
  | saveNode
  | indexAdd
  | indexCommit (message : String)
  | pullRebase (remote : String) (branch : String)
  | push (branch : String)
  | prCreate (repo : String) (title : String) (draft : Bool)
deriving DecidableEq

/-- The git effects `commitAndPush` performs between a successful save and
the inspection of the push result: stage, commit, optional rebase onto the
already-pushed origin branch, then push. -/
def commitTrace (s : SessionState) (message : String) : List Effect :=
  [Effect.saveNode, Effect.indexAdd, Effect.indexCommit message] ++
    (if s.activeBranch ∈ s.originBranches then
      [Effect.pullRebase "origin" s.activeBranch] else []) ++
    [Effect.push s.activeBranch]

/-- Embedding of `commitAndPush` (MorphoDepot.py lines 1712-1763).  The
result is the new session state, the trace of effects in order, and the
Python return value.  The rebase and push are modelled as completing (a
git exception would abort the call before PR creation, which only
strengthens the invariants verified below); a successful push makes the
active branch present on origin for subsequent calls. -/
def commitAndPush (s : SessionState) (env : CallEnv) (message : String) :
    SessionState × List Effect × Bool :=
  if s.hasSegmentationNode = false then (s, [], false)
  else if env.saveSucceeds = false then (s, [Effect.saveNode], false)
  else
    let effs := commitTrace s message
    if anyPushFailure env.pushInfoFlags then (s, effs, false)
    else
      let s1 : SessionState := { s with originBranches :=
        if s.activeBranch ∈ s.originBranches then s.originBranches
        else s.originBranches ++ [s.activeBranch] }
      match issuePR s with
      | some _ => (s1, effs, true)
      | none =>
        ({ s1 with openPRs := s1.openPRs ++
            [⟨s.upstreamNameWithOwner, s.activeBranch, true⟩] },
         effs ++ [Effect.prCreate s.upstreamNameWithOwner s.activeBranch true],
         true)

/-- Sequential invocations of `commitAndPush`, one `CallEnv` and commit
message per call, accumulating the effect trace. -/
def runCommitAndPush (s : SessionState) :
    List (CallEnv × String) → SessionState × List Effect
  | [] => (s, [])
  | (env, msg) :: rest =>
    let r := commitAndPush s env msg
    let r2 := runCommitAndPush r.1 rest
    (r2.1, r.2.1 ++ r2.2)

/-- Test for a PR-creation effect. -/
def isPrCreate : Effect → Bool
  | Effect.prCreate _ _ _ => true
  | _ => false

/-- Number of `pr create` commands in a trace. -/
def countPrCreates (effs : List Effect) : Nat :=
  (effs.filter isPrCreate).length

/-- A concrete session used by the witnesses: issue branch issue-5 of a
repository carrying the morphodepot topic, no PR yet. -/
def segSession : SessionState :=
  { hasSegmentationNode := true
    activeBranch := "issue-5"
    upstreamNameWithOwner := "alice/specimen"
    originBranches := []
    morphoRepoNames := ["alice/specimen"]
    openPRs := [] }

/-- A call whose save and push both succeed (push reports NEW_HEAD). -/
def cleanCall : CallEnv := { saveSucceeds := true, pushInfoFlags := [2] }

/-- A call whose push is rejected (PushInfo REJECTED bit). -/
def rejectedCall : CallEnv := { saveSucceeds := true, pushInfoFlags := [8] }

/-- A call whose segmentation save fails. -/
def failedSaveCall : CallEnv := { saveSucceeds := false, pushInfoFlags := [2] }

/-- Minimal JSON value universe for the `ghJSON` wrapper. -/
inductive Json where
  | null
  | bool (b : Bool)
  | num (n : Int)
  | str (s : String)
  | arr (elems : List Json)
  | obj (fields : List (String × Json))

/-- Embedding of `ghJSON` (MorphoDepot.py lines 1444-1449), parametrised
by the JSON parser: a truthy (non-empty) tool output is passed to
`json.loads`, whose parse failure raises (error result); an empty output
returns the empty list without parsing. -/
def ghJSON (parse : String → Option Json) (toolOutput : String) :
    Except String Json :=
  if toolOutput ≠ "" then
    match parse toolOutput with
    | some j => Except.ok j
    | none => Except.error "json.decoder.JSONDecodeError"
  else Except.ok (Json.arr [])

/-- Process state around one `gh` invocation: the process locale, whether
`launchConsoleProcess` (or `communicate`) raises, and the exit code and
output of the subprocess otherwise. -/
structure LocaleState where
  processLocale : String
  launchRaises : Bool
  returncode : Nat
  stdout : String
deriving DecidableEq

/-- Embedding of the locale handling in `gh` (MorphoDepot.py lines
1431-1442): save the locale, force en_US.UTF-8, run the subprocess,
restore the locale, then raise on a non-zero exit code.  There is no
try/finally, so an exception out of the subprocess launch propagates
before the restore statement runs. -/
def ghLocaleRun (st : LocaleState) : LocaleState × Except String String :=
  let originalLocale := st.processLocale
  let st1 := { st with processLocale := "en_US.UTF-8" }
  if st1.launchRaises then
    (st1, Except.error "OSError: launchConsoleProcess failed")
  else
    let st2 := { st1 with processLocale := originalLocale }
    if st2.returncode ≠ 0 then
      (st2, Except.error "RuntimeError: gh command failed")
    else (st2, Except.ok st2.stdout)

/-- A Python value passed as the `command` argument of `gh`: a string, a
list of token strings, or a value of any other type (an int here). -/
inductive PyVal where
  | str (s : List Char)
  | tokens (xs : List (List Char))
  | intVal (n : Int)
deriving DecidableEq

/-- Embedding of the command normalisation at the top of `gh`
(MorphoDepot.py lines 1416-1429): a string is newline-flattened and
whitespace-tokenized, a list is used as given, and any other type logs
"command must be string or list" but then falls through to a use of the
never-assigned `commandList`, raising UnboundLocalError.  The first
component collects the logged error messages. -/
def ghDispatch (command : PyVal) : List String × Except String (List (List Char)) :=
  match command with
  | PyVal.str s => ([], Except.ok (pySplitWs (pyReplaceNlSpace s)))
  | PyVal.tokens xs => ([], Except.ok xs)
  | PyVal.intVal _ =>
    (["command must be string or list"],
     Except.error "UnboundLocalError: commandList referenced before assignment")

/-- The shared tail of both branches of `nameWithOwner`: join the last two
slash-separated segments and keep everything before the first dot. -/
def stripTwoSegments (u : List Char) : List Char :=
  match pySplitChar '.' (pyJoinChar '/' (lastTwo (pySplitChar '/' u))) with
  | [] => []
  | p :: _ => p

/-- Embedding of `nameWithOwner` (MorphoDepot.py lines 1681-1692) applied
to the first configured URL of the remote: an URL containing a commercial
at is treated as ssh form and its colons are first replaced by slashes;
both branches then reduce to `stripTwoSegments`. -/
def nameWithOwner (repoURL : List Char) : List Char :=
  if '@' ∈ repoURL then
    stripTwoSegments (pyJoinChar '/' (pySplitChar ':' repoURL))
  else
    stripTwoSegments repoURL

/-- A plain URL path segment: free of the separator characters consumed
by `nameWithOwner`. -/
def urlSeg (l : List Char) : Prop :=
  '/' ∉ l ∧ '.' ∉ l ∧ ':' ∉ l ∧ '@' ∉ l

instance (l : List Char) : Decidable (urlSeg l) := by
  unfold urlSeg; infer_instance

/-- The characters of the literal prefix https:// . -/
def httpsPrefix : List Char := ['h', 't', 't', 'p', 's', ':', '/', '/']

/-- Embedding of the Python `str.isdigit` test on ASCII strings: non-empty
and all decimal digits. -/
def pyIsDigit (s : List Char) : Bool :=
  decide (s ≠ []) && s.all (fun c => c.isDigit)

/-- Embedding of the `startswith("v")` filter in `createRelease`. -/
def vTagNames (tagNames : List (List Char)) : List (List Char) :=
  tagNames.filter (fun t => decide (t.take 1 = ['v']))

/-- Embedding of the list comprehension building `versions` in
`createRelease`: among tags starting with v, keep those whose remainder is
all digits, and take their numeric value. -/
def releaseVersions (tagNames : List (List Char)) : List Nat :=
  ((vTagNames tagNames).filter (fun t => pyIsDigit (t.drop 1))).map
    (fun t => parseDigits (t.drop 1))

/-- Embedding of the Python `max` builtin on a non-empty list. -/
def pyMax (v : Nat) (vs : List Nat) : Nat := vs.foldl max v

/-- Embedding of the version computation in `createRelease`
(MorphoDepot.py lines 1825-1842): 1 when there are no releases or no
v-integer tags, otherwise one plus the maximum numeric suffix. -/
def nextVersion (tagNames : List (List Char)) : Nat :=
  if tagNames = [] then 1
  else
    match releaseVersions tagNames with
    | [] => 1
    | v :: vs => pyMax v vs + 1

/-- The tag passed to `release create`: the f-string `v{nextVersion}`. -/
def nextTag (tagNames : List (List Char)) : List Char :=
  'v' :: natDigits (nextVersion tagNames)

/-- Numeric suffix of a tag of the form v<integer>, none otherwise (the
notion used by the claim). -/
def tagVersion (t : List Char) : Option Nat :=
  if t.take 1 = ['v'] ∧ pyIsDigit (t.drop 1) then some (parseDigits (t.drop 1))
  else none

/-- Maximum of a list of naturals, 0 when empty. -/
def maxNat (l : List Nat) : Nat := l.foldl max 0

theorem natDigitsAux_congr :
    ∀ fuel1 fuel2 n : Nat, n < fuel1 → n < fuel2 →
      natDigitsAux fuel1 n = natDigitsAux fuel2 n := by
  intro fuel1
  induction fuel1 with
  | zero => omega
  | succ f ih =>
    intro fuel2 n h1 h2
    cases fuel2 with
    | zero => omega
    | succ g =>
      by_cases h10 : n < 10
      · simp [natDigitsAux, h10]
      · have hdiv : n / 10 < n := Nat.div_lt_self (by omega) (by norm_num)
        simp only [natDigitsAux, h10, if_false]
        rw [ih g (n / 10) (by omega) (by omega)]

theorem natDigits_eq (n : Nat) :
    natDigits n = if n < 10 then [digitChar n]
      else natDigits (n / 10) ++ [digitChar (n % 10)] := by
  by_cases h10 : n < 10
  · simp [natDigits, natDigitsAux, h10]
  · have hdiv : n / 10 < n := Nat.div_lt_self (by omega) (by norm_num)
    simp only [natDigits]
    conv_lhs => rw [natDigitsAux]
    simp only [h10, if_false]
    rw [natDigitsAux_congr n (n / 10 + 1) (n / 10) (by omega) (by omega)]

theorem digitVal_digitChar {n : Nat} (h : n < 10) : digitVal (digitChar n) = n := by
  interval_cases n <;> decide

theorem digitChar_ne_dash {n : Nat} (h : n < 10) : digitChar n ≠ '-' := by
  interval_cases n <;> decide

theorem parseDigits_append (xs : List Char) (c : Char) :
    parseDigits (xs ++ [c]) = 10 * parseDigits xs + digitVal c := by
  simp [parseDigits, List.foldl_append]

theorem parseDigits_natDigits (n : Nat) : parseDigits (natDigits n) = n := by
  induction n using Nat.strong_induction_on with
  | _ n ih =>
    rw [natDigits_eq]
    by_cases h10 : n < 10
    · simp only [h10, if_true]
      simp [parseDigits, digitVal_digitChar h10]
    · have hdiv : n / 10 < n := Nat.div_lt_self (by omega) (by norm_num)
      simp only [h10, if_false]
      rw [parseDigits_append, ih (n / 10) hdiv,
        digitVal_digitChar (Nat.mod_lt n (by norm_num))]
      omega

theorem natDigits_injective : Function.Injective natDigits := by
  intro a b h
  have := parseDigits_natDigits a
  rw [h, parseDigits_natDigits b] at this
  omega

theorem natDigits_ne_dash (n : Nat) : ∀ c ∈ natDigits n, c ≠ '-' := by
  induction n using Nat.strong_induction_on with
  | _ n ih =>
    rw [natDigits_eq]
    by_cases h10 : n < 10
    · simp only [h10, if_true]
      intro c hc
      simp only [List.mem_singleton] at hc
      rw [hc]; exact digitChar_ne_dash h10
    · have hdiv : n / 10 < n := Nat.div_lt_self (by omega) (by norm_num)
      simp only [h10, if_false]
      intro c hc
      rcases List.mem_append.mp hc with h1 | h2
      · exact ih (n / 10) hdiv c h1
      · simp only [List.mem_singleton] at h2
        rw [h2]; exact digitChar_ne_dash (Nat.mod_lt n (by norm_num))

theorem pySplitChar_no_sep {sep : Char} {xs : List Char}
    (h : ∀ c ∈ xs, c ≠ sep) : pySplitChar sep xs = [xs] := by
  induction xs with
  | nil => rfl
  | cons c rest ih =>
    have hc : c ≠ sep := h c (List.mem_cons_self c rest)
    have hrest : pySplitChar sep rest = [rest] :=
      ih (fun d hd => h d (List.mem_cons_of_mem c hd))
    simp [pySplitChar, hc, hrest]

theorem pySplitChar_append {sep : Char} {xs : List Char} (ys : List Char)
    (h : ∀ c ∈ xs, c ≠ sep) :
    pySplitChar sep (xs ++ sep :: ys) = xs :: pySplitChar sep ys := by
  induction xs with
  | nil => simp [pySplitChar]
  | cons c rest ih =>
    have hc : c ≠ sep := h c (List.mem_cons_self c rest)
    have hrest := ih (fun d hd => h d (List.mem_cons_of_mem c hd))
    simp [pySplitChar, hc, hrest]

/-- C1 counterexample: on a fresh issue 7 with no local branch and no
origin branch, the code creates the new branch from origin/main (the fork
main line), not from the upstream main line as the claim states, so the
code trace differs from the spec-described trace. -/
theorem syncIssueBranch_newBranch_not_from_upstream_main :
    syncIssueBranch [] [] 7 =
      [GitCmd.fetch "origin", GitCmd.checkout "origin/main",
       GitCmd.branchCreate (branchNameFor 7), GitCmd.checkout (branchNameFor 7)] ∧
    syncIssueBranchSpec [] [] 7 =
      [GitCmd.fetch "origin", GitCmd.checkout "upstream/main",
       GitCmd.branchCreate (branchNameFor 7), GitCmd.checkout (branchNameFor 7)] ∧
    syncIssueBranch [] [] 7 ≠ syncIssueBranchSpec [] [] 7 := by
  refine ⟨by decide, by decide, by decide⟩

/-- C1 amended: `loadIssue` resolves the branch issue-<number> by the
three-case order, first match wins: an existing local branch is checked
out directly and then rebased onto the upstream main line; otherwise an
existing origin branch of that name is checked out with tracking;
otherwise a brand-new branch is created from the main line of origin (the
fork), not of upstream, and switched to. -/
theorem syncIssueBranch_three_case_resolution
    (lb ob : List String) (n : Nat) :
    (branchNameFor n ∈ lb →
      syncIssueBranch lb ob n =
        [GitCmd.fetch "origin", GitCmd.checkout (branchNameFor n),
         GitCmd.pullRebase "upstream" "main"]) ∧
    (branchNameFor n ∉ lb → ("origin/" ++ branchNameFor n) ∈ ob →
      syncIssueBranch lb ob n =
        [GitCmd.fetch "origin",
         GitCmd.checkoutTrack ("origin/" ++ branchNameFor n)]) ∧
    (branchNameFor n ∉ lb → ("origin/" ++ branchNameFor n) ∉ ob →
      syncIssueBranch lb ob n =
        [GitCmd.fetch "origin", GitCmd.checkout "origin/main",
         GitCmd.branchCreate (branchNameFor n),
         GitCmd.checkout (branchNameFor n)]) := by
  refine ⟨fun h1 => ?_, fun h1 h2 => ?_, fun h1 h2 => ?_⟩
  · simp [syncIssueBranch, h1]
  · simp [syncIssueBranch, h1, h2]
  · simp [syncIssueBranch, h1, h2]

/-- C1 witness: with the local branch issue-5 present, case 1 fires. -/
theorem syncIssueBranch_three_case_resolution_witness :
    syncIssueBranch ["issue-5"] [] 5 =
      [GitCmd.fetch "origin", GitCmd.checkout (branchNameFor 5),
       GitCmd.pullRebase "upstream" "main"] :=
  (syncIssueBranch_three_case_resolution ["issue-5"] [] 5).1 (by decide)

/-- C9: the branch name derived for issue N is exactly issue-<N>, the
inverse mapping used by `commitAndPush` (field 1 of the dash-split of the
branch name) recovers exactly the decimal rendering of N, whose numeric
value is N, and the mapping from issue numbers to branch names is
injective. -/
theorem branchName_issue_roundtrip (n : Nat) :
    extractIssueNumber (branchNameFor n).data = some (natDigits n) ∧
    parseDigits (natDigits n) = n ∧
    ∀ m : Nat, branchNameFor n = branchNameFor m → n = m := by
  refine ⟨?_, parseDigits_natDigits n, ?_⟩
  · have hsplit :
        pySplitChar '-' (['i', 's', 's', 'u', 'e'] ++ '-' :: natDigits n) =
          ['i', 's', 's', 'u', 'e'] :: pySplitChar '-' (natDigits n) :=
      pySplitChar_append (natDigits n) (by decide)
    have hrest : pySplitChar '-' (natDigits n) = [natDigits n] :=
      pySplitChar_no_sep (natDigits_ne_dash n)
    show (pySplitChar '-' (['i', 's', 's', 'u', 'e', '-'] ++ natDigits n)).get? 1
        = some (natDigits n)
    have hl : (['i', 's', 's', 'u', 'e', '-'] ++ natDigits n)
        = ['i', 's', 's', 'u', 'e'] ++ '-' :: natDigits n := by simp
    rw [hl, hsplit, hrest]
    rfl
  · intro m h
    have hdata : (['i', 's', 's', 'u', 'e', '-'] ++ natDigits n)
        = (['i', 's', 's', 'u', 'e', '-'] ++ natDigits m) := congrArg String.data h
    simp only [List.cons_append, List.cons.injEq, true_and] at hdata
    exact natDigits_injective (by simpa using hdata)

/-- C9 witness: the round trip at issue number 42. -/
theorem branchName_issue_roundtrip_witness :
    extractIssueNumber (branchNameFor 42).data = some ['4', '2'] ∧ 42 = 42 :=
  ⟨(branchName_issue_roundtrip 42).1, (branchName_issue_roundtrip 42).2.2 42 rfl⟩

/-- C4: evaluation of `ghJSON` at the failing input.  An empty tool output
yields the empty list, and well-formed output yields the parsed data; but
a non-empty output that fails to parse propagates the parse exception
raised by `json.loads` instead of returning the empty list, contradicting
the claim (and the docstring of `ghJSON`). -/
theorem ghJSON_parse_failure_propagates :
    ghJSON (fun _ => none) "not json" =
      Except.error "json.decoder.JSONDecodeError" ∧
    ghJSON (fun _ => none) "" = Except.ok (Json.arr []) ∧
    ghJSON (fun _ => some (Json.num 3)) "3" = Except.ok (Json.num 3) := by
  refine ⟨rfl, rfl, rfl⟩

/-- C7: evaluation of the locale handling in `gh` at the failing input.
When the subprocess launch raises, the process locale is left forced to
en_US.UTF-8 instead of being restored to its prior value, because the
restore is not protected by a try/finally; the normal path and the
non-zero-exit path do restore it. -/
theorem gh_locale_not_restored_on_launch_failure :
    (ghLocaleRun ⟨"C", true, 0, ""⟩).1.processLocale = "en_US.UTF-8" ∧
    (ghLocaleRun ⟨"C", true, 0, ""⟩).1.processLocale ≠ "C" ∧
    (ghLocaleRun ⟨"C", true, 0, ""⟩).2 =
      Except.error "OSError: launchConsoleProcess failed" ∧
    (ghLocaleRun ⟨"C", false, 0, "out"⟩).1.processLocale = "C" ∧
    (ghLocaleRun ⟨"C", false, 1, ""⟩).1.processLocale = "C" := by
  refine ⟨rfl, by decide, rfl, rfl, rfl⟩

/-- C8: evaluation of the command normalisation in `gh`.  A string is
tokenized on whitespace with newlines included and a list is used as
given; but an argument of any other type, after the logged error, crashes
with UnboundLocalError at the next use of the never-assigned
`commandList`, contradicting the claim that no unrelated exception is
raised. -/
theorem gh_invalid_command_type_crashes :
    ghDispatch (PyVal.intVal 42) =
      (["command must be string or list"],
       Except.error "UnboundLocalError: commandList referenced before assignment") ∧
    ghDispatch (PyVal.str ("pr list\n --json title".data)) =
      ([], Except.ok ["pr".data, "list".data, "--json".data, "title".data]) ∧
    ghDispatch (PyVal.tokens ["pr".data, "create".data]) =
      ([], Except.ok ["pr".data, "create".data]) := by
  refine ⟨rfl, rfl, rfl⟩

theorem releaseVersions_cons (t : List Char) (ts : List (List Char)) :
    releaseVersions (t :: ts) =
      match tagVersion t with
      | some v => v :: releaseVersions ts
      | none => releaseVersions ts := by
  by_cases h1 : t.take 1 = ['v']
  · by_cases h2 : pyIsDigit (t.drop 1) = true
    · simp only [releaseVersions, vTagNames, List.filter_cons, h1, h2,
        tagVersion, decide_True, if_true, List.map_cons, true_and, and_self,
        List.filter_cons_of_pos, if_pos]
    · simp only [releaseVersions, vTagNames, List.filter_cons, h1, h2,
        tagVersion, decide_True, if_true, true_and, if_false,
        Bool.false_eq_true]
  · simp only [releaseVersions, vTagNames, List.filter_cons, tagVersion]
    simp [h1]

theorem releaseVersions_eq_filterMap (tagNames : List (List Char)) :
    releaseVersions tagNames = tagNames.filterMap tagVersion := by
  induction tagNames with
  | nil => rfl
  | cons t ts ih =>
    rw [releaseVersions_cons, List.filterMap_cons]
    cases tagVersion t <;> simp [ih]

theorem pyMax_eq_maxNat (v : Nat) (vs : List Nat) :
    pyMax v vs = maxNat (v :: vs) := by
  simp [pyMax, maxNat]

/-- C6: the next release version computed by `createRelease` is one plus
the maximum numeric suffix among existing tags of the form v<integer>
(zero when there are none, so the default is v1), and in particular the
tags v1 and v3 give the next tag v4, never v2. -/
theorem createRelease_next_tag (tagNames : List (List Char)) :
    nextVersion tagNames = maxNat (tagNames.filterMap tagVersion) + 1 ∧
    nextTag tagNames = 'v' :: natDigits (maxNat (tagNames.filterMap tagVersion) + 1) ∧
    nextVersion [['v', '1'], ['v', '3']] = 4 ∧
    nextTag [['v', '1'], ['v', '3']] = ['v', '4'] ∧
    nextVersion [] = 1 ∧
    nextTag [['r', 'c', '1'], ['v', '2', 'a']] = ['v', '1'] := by
  have hmain : nextVersion tagNames = maxNat (tagNames.filterMap tagVersion) + 1 := by
    by_cases hnil : tagNames = []
    · subst hnil; rfl
    · simp only [nextVersion, hnil, if_false]
      rw [releaseVersions_eq_filterMap] at *
      cases hv : tagNames.filterMap tagVersion with
      | nil => simp [hv, maxNat]
      | cons v vs =>
        simp only [hv, pyMax_eq_maxNat]
  refine ⟨hmain, ?_, by decide, by decide, by decide, by decide⟩
  rw [nextTag, hmain]

theorem pyJoinChar_pair (sep : Char) (a b : List Char) :
    pyJoinChar sep [a, b] = a ++ sep :: b := rfl

theorem lastTwo_append_two {α : Type} (pre : List α) (a b : α) :
    lastTwo (pre ++ [a, b]) = [a, b] := by
  unfold lastTwo
  have h : (pre ++ [a, b]).length - 2 = pre.length := by
    simp [List.length_append]
  rw [h, List.drop_left]

theorem all_ne_of_notMem {sep : Char} {l : List Char} (h : sep ∉ l) :
    ∀ c ∈ l, c ≠ sep := by
  intro c hc heq
  subst heq
  exact h hc

theorem all_ne_append {sep : Char} {xs ys : List Char}
    (hx : ∀ c ∈ xs, c ≠ sep) (hy : ∀ c ∈ ys, c ≠ sep) :
    ∀ c ∈ xs ++ ys, c ≠ sep := by
  intro c hc
  rcases List.mem_append.mp hc with h1 | h2
  · exact hx c h1
  · exact hy c h2

theorem all_ne_cons {sep d : Char} {ys : List Char}
    (hd : d ≠ sep) (hy : ∀ c ∈ ys, c ≠ sep) :
    ∀ c ∈ d :: ys, c ≠ sep := by
  intro c hc
  rcases List.mem_cons.mp hc with h1 | h2
  · exact h1 ▸ hd
  · exact hy c h2

theorem stripTwoSegments_eq (pre : List (List Char)) (u owner name ext : List Char)
    (hsplit : pySplitChar '/' u = pre ++ [owner, name ++ '.' :: ext])
    (hOwner : '.' ∉ owner) (hName : '.' ∉ name) :
    stripTwoSegments u = owner ++ '/' :: name := by
  unfold stripTwoSegments
  rw [hsplit, lastTwo_append_two, pyJoinChar_pair]
  have hassoc : owner ++ '/' :: (name ++ '.' :: ext)
      = (owner ++ '/' :: name) ++ '.' :: ext := by simp
  have hno : ∀ c ∈ owner ++ '/' :: name, c ≠ '.' :=
    all_ne_append (all_ne_of_notMem hOwner)
      (all_ne_cons (by decide) (all_ne_of_notMem hName))
  rw [hassoc, pySplitChar_append ext hno]

/-- C5: for a remote whose first configured URL is of ssh form
host:owner/name.ext with the host containing a commercial at, or of https
form with the literal https:// prefix, `nameWithOwner` returns exactly
owner/name; the segments owner, name and ext are plain (free of the
separator characters). -/
theorem nameWithOwner_owner_name
    (host owner name ext : List Char)
    (hOwner : urlSeg owner) (hName : urlSeg name) (hExt : urlSeg ext) :
    ('@' ∈ host → ':' ∉ host → '/' ∉ host →
      nameWithOwner (host ++ ':' :: (owner ++ '/' :: (name ++ '.' :: ext))) =
        owner ++ '/' :: name) ∧
    ('@' ∉ host → '/' ∉ host →
      nameWithOwner
          (httpsPrefix ++ (host ++ '/' :: (owner ++ '/' :: (name ++ '.' :: ext)))) =
        owner ++ '/' :: name) := by
  obtain ⟨hO1, hO2, hO3, hO4⟩ := hOwner
  obtain ⟨hN1, hN2, hN3, hN4⟩ := hName
  obtain ⟨hE1, hE2, hE3, hE4⟩ := hExt
  have hnameExtNoSlash : ∀ c ∈ name ++ '.' :: ext, c ≠ '/' :=
    all_ne_append (all_ne_of_notMem hN1)
      (all_ne_cons (by decide) (all_ne_of_notMem hE1))
  constructor
  · intro hAt hColon hSlash
    have hin : '@' ∈ host ++ ':' :: (owner ++ '/' :: (name ++ '.' :: ext)) :=
      List.mem_append_left _ hAt
    rw [nameWithOwner, if_pos hin]
    have hrestNoColon : ∀ c ∈ owner ++ '/' :: (name ++ '.' :: ext), c ≠ ':' :=
      all_ne_append (all_ne_of_notMem hO3)
        (all_ne_cons (by decide)
          (all_ne_append (all_ne_of_notMem hN3)
            (all_ne_cons (by decide) (all_ne_of_notMem hE3))))
    have hsplitColon :
        pySplitChar ':' (host ++ ':' :: (owner ++ '/' :: (name ++ '.' :: ext)))
          = [host, owner ++ '/' :: (name ++ '.' :: ext)] := by
      rw [pySplitChar_append _ (all_ne_of_notMem hColon),
        pySplitChar_no_sep hrestNoColon]
    rw [hsplitColon, pyJoinChar_pair]
    refine stripTwoSegments_eq [host] _ owner name ext ?_ hO2 hN2
    rw [pySplitChar_append _ (all_ne_of_notMem hSlash),
      pySplitChar_append _ (all_ne_of_notMem hO1),
      pySplitChar_no_sep hnameExtNoSlash]
    rfl
  · intro hAt hSlash
    have hnot : '@' ∉ httpsPrefix ++
        (host ++ '/' :: (owner ++ '/' :: (name ++ '.' :: ext))) := by
      intro hmem
      rcases List.mem_append.mp hmem with h0 | h1
      · exact absurd h0 (by decide)
      rcases List.mem_append.mp h1 with h2 | h3
      · exact hAt h2
      rcases List.mem_cons.mp h3 with h4 | h5
      · exact absurd h4 (by decide)
      rcases List.mem_append.mp h5 with h6 | h7
      · exact hO4 h6
      rcases List.mem_cons.mp h7 with h8 | h9
      · exact absurd h8 (by decide)
      rcases List.mem_append.mp h9 with h10 | h11
      · exact hN4 h10
      rcases List.mem_cons.mp h11 with h12 | h13
      · exact absurd h12 (by decide)
      exact hE4 h13
    rw [nameWithOwner, if_neg hnot]
    refine stripTwoSegments_eq [['h', 't', 't', 'p', 's', ':'], [], host]
      _ owner name ext ?_ hO2 hN2
    have hshape :
        httpsPrefix ++ (host ++ '/' :: (owner ++ '/' :: (name ++ '.' :: ext)))
          = ['h', 't', 't', 'p', 's', ':'] ++ '/' ::
              (([] : List Char) ++ '/' ::
                (host ++ '/' :: (owner ++ '/' :: (name ++ '.' :: ext)))) := by
      simp [httpsPrefix]
    rw [hshape,
      pySplitChar_append _ (by decide),
      pySplitChar_append _ (by simp),
      pySplitChar_append _ (all_ne_of_notMem hSlash),
      pySplitChar_append _ (all_ne_of_notMem hO1),
      pySplitChar_no_sep hnameExtNoSlash]
    rfl

/-- C5 witness: the ssh remote URL git@github.com:alice/specimen.git
resolves to alice/specimen. -/
theorem nameWithOwner_owner_name_witness :
    nameWithOwner ("git@github.com".data ++ ':' ::
        ("alice".data ++ '/' :: ("specimen".data ++ '.' :: "git".data))) =
      "alice".data ++ '/' :: "specimen".data :=
  (nameWithOwner_owner_name "git@github.com".data "alice".data "specimen".data
    "git".data (by decide) (by decide) (by decide)).1 (by decide) (by decide)
    (by decide)

theorem countPrCreates_append (a b : List Effect) :
    countPrCreates (a ++ b) = countPrCreates a + countPrCreates b := by
  simp [countPrCreates, List.filter_append]

theorem countPrCreates_commitTrace (s : SessionState) (msg : String) :
    countPrCreates (commitTrace s msg) = 0 := by
  by_cases h : s.activeBranch ∈ s.originBranches <;>
    simp [commitTrace, countPrCreates, isPrCreate, h]

theorem prCreate_not_mem_commitTrace (s : SessionState) (msg : String) :
    ∀ r t d, Effect.prCreate r t d ∉ commitTrace s msg := by
  intro r t d hmem
  by_cases h : s.activeBranch ∈ s.originBranches <;>
    simp [commitTrace, h] at hmem

theorem foldl_lastMatch_eq_none {α : Type} (p : α → Prop) [DecidablePred p] :
    ∀ (l : List α) (acc : Option α),
      (l.foldl (fun a x => if p x then some x else a) acc = none) ↔
        (acc = none ∧ ∀ x ∈ l, ¬ p x) := by
  intro l
  induction l with
  | nil => intro acc; simp
  | cons x xs ih =>
    intro acc
    rw [List.foldl_cons, ih]
    by_cases hx : p x
    · simp [hx]
    · simp only [hx, if_false, List.mem_cons]
      constructor
      · rintro ⟨h1, h2⟩
        refine ⟨h1, ?_⟩
        rintro y (rfl | hy)
        · exact hx
        · exact h2 y hy
      · rintro ⟨h1, h2⟩
        exact ⟨h1, fun y hy => h2 y (Or.inr hy)⟩

theorem issuePR_eq_none_iff (s : SessionState) :
    issuePR s = none ↔ ∀ pr ∈ prListModel s, ¬ prMatch s pr := by
  rw [issuePR, foldl_lastMatch_eq_none]
  simp

theorem issuePR_ne_none_of_match (s : SessionState) (pr : PullReq)
    (hmem : pr ∈ s.openPRs) (hrepo : pr.repo ∈ s.morphoRepoNames)
    (hm : prMatch s pr) : issuePR s ≠ none := by
  intro h
  have hin : pr ∈ prListModel s :=
    List.mem_filter.mpr ⟨hmem, by simp [hrepo]⟩
  exact (issuePR_eq_none_iff s).mp h pr hin hm

theorem commitAndPush_step_cases (s : SessionState) (env : CallEnv) (msg : String) :
    ((∀ r t d, Effect.prCreate r t d ∉ (commitAndPush s env msg).2.1) ∧
      countPrCreates (commitAndPush s env msg).2.1 = 0 ∧
      ∃ ob, (commitAndPush s env msg).1 = { s with originBranches := ob }) ∨
    (issuePR s = none ∧ anyPushFailure env.pushInfoFlags = false ∧
      (commitAndPush s env msg).2.1 =
        commitTrace s msg ++
          [Effect.prCreate s.upstreamNameWithOwner s.activeBranch true] ∧
      countPrCreates (commitAndPush s env msg).2.1 = 1 ∧
      ∃ ob, (commitAndPush s env msg).1 =
        { s with originBranches := ob,
                 openPRs := s.openPRs ++
                   [⟨s.upstreamNameWithOwner, s.activeBranch, true⟩] }) := by
  by_cases h1 : s.hasSegmentationNode = false
  · have hstep : commitAndPush s env msg = (s, [], false) := by
      simp [commitAndPush, h1]
    left
    refine ⟨?_, ?_, s.originBranches, ?_⟩
    · rw [hstep]; simp
    · rw [hstep]; try rfl
    · rw [hstep]; try rfl
  · by_cases h2 : env.saveSucceeds = false
    · have hstep : commitAndPush s env msg = (s, [Effect.saveNode], false) := by
        simp [commitAndPush, h1, h2]
      left
      refine ⟨?_, ?_, s.originBranches, ?_⟩
      · rw [hstep]; simp
      · rw [hstep]; try rfl
      · rw [hstep]; try rfl
    · by_cases h3 : anyPushFailure env.pushInfoFlags
      · have hstep : commitAndPush s env msg = (s, commitTrace s msg, false) := by
          simp [commitAndPush, h1, h2, h3]
        left
        refine ⟨?_, ?_, s.originBranches, ?_⟩
        · rw [hstep]; exact fun r t d => prCreate_not_mem_commitTrace s msg r t d
        · rw [hstep]; exact countPrCreates_commitTrace s msg
        · rw [hstep]; try rfl
      · cases hip : issuePR s with
        | some pr =>
          have hstep : commitAndPush s env msg =
              ({ s with
                  originBranches :=
                    (if s.activeBranch ∈ s.originBranches then s.originBranches
                      else s.originBranches ++ [s.activeBranch]) },
               commitTrace s msg, true) := by
            simp [commitAndPush, h1, h2, h3, hip]
          left
          refine ⟨?_, ?_,
            (if s.activeBranch ∈ s.originBranches then s.originBranches
             else s.originBranches ++ [s.activeBranch]), ?_⟩
          · rw [hstep]; exact fun r t d => prCreate_not_mem_commitTrace s msg r t d
          · rw [hstep]; exact countPrCreates_commitTrace s msg
          · rw [hstep]; try rfl
        | none =>
          have hstep : commitAndPush s env msg =
              ({ s with
                  originBranches :=
                    (if s.activeBranch ∈ s.originBranches then s.originBranches
                      else s.originBranches ++ [s.activeBranch]),
                  openPRs := s.openPRs ++
                    [⟨s.upstreamNameWithOwner, s.activeBranch, true⟩] },
               commitTrace s msg ++
                 [Effect.prCreate s.upstreamNameWithOwner s.activeBranch true],
               true) := by
            simp [commitAndPush, h1, h2, h3, hip]
          right
          refine ⟨rfl, by simpa using h3, ?_, ?_,
            (if s.activeBranch ∈ s.originBranches then s.originBranches
             else s.originBranches ++ [s.activeBranch]), ?_⟩
          · rw [hstep]; try rfl
          · rw [hstep]
            rw [countPrCreates_append, countPrCreates_commitTrace]
            rfl
          · rw [hstep]; try rfl

theorem runCommitAndPush_creates_le (calls : List (CallEnv × String)) :
    ∀ s : SessionState, s.upstreamNameWithOwner ∈ s.morphoRepoNames →
      countPrCreates (runCommitAndPush s calls).2 ≤
        (if issuePR s = none then 1 else 0) := by
  induction calls with
  | nil =>
    intro s hup
    simp [runCommitAndPush, countPrCreates]
  | cons c rest ih =>
    intro s hup
    obtain ⟨env, msg⟩ := c
    have hsplit : (runCommitAndPush s ((env, msg) :: rest)).2 =
        (commitAndPush s env msg).2.1 ++
          (runCommitAndPush (commitAndPush s env msg).1 rest).2 := rfl
    rw [hsplit, countPrCreates_append]
    rcases commitAndPush_step_cases s env msg with
      ⟨hnomem, hcnt, ob, hst⟩ | ⟨hnone, hpf, htrace, hcnt, ob, hst⟩
    · have hup1 : (commitAndPush s env msg).1.upstreamNameWithOwner ∈
          (commitAndPush s env msg).1.morphoRepoNames := by
        rw [hst]; exact hup
      have hipr : issuePR (commitAndPush s env msg).1 = issuePR s := by
        rw [hst]; rfl
      have hrest := ih (commitAndPush s env msg).1 hup1
      rw [hipr] at hrest
      rw [hcnt, Nat.zero_add]
      exact hrest
    · have hup1 : (commitAndPush s env msg).1.upstreamNameWithOwner ∈
          (commitAndPush s env msg).1.morphoRepoNames := by
        rw [hst]; exact hup
      have hne : issuePR (commitAndPush s env msg).1 ≠ none := by
        rw [hst]
        refine issuePR_ne_none_of_match _
          ⟨s.upstreamNameWithOwner, s.activeBranch, true⟩ ?_ ?_ ?_
        · exact List.mem_append_right _ (List.mem_cons_self _ _)
        · exact hup
        · exact ⟨rfl, rfl⟩
      have hrest := ih (commitAndPush s env msg).1 hup1
      rw [if_neg hne] at hrest
      rw [hcnt, if_pos hnone]
      omega

/-- C2: over any number of sequential `commitAndPush` invocations against
a morphodepot-topic upstream, at most one pr create command is issued for
the (upstream repository, active branch) pair, and any issued pr create is
a draft for exactly that pair, emitted only when the pre-push search found
no matching PR and the push completed cleanly. -/
theorem commitAndPush_at_most_one_pr (s : SessionState)
    (calls : List (CallEnv × String))
    (hup : s.upstreamNameWithOwner ∈ s.morphoRepoNames) :
    countPrCreates (runCommitAndPush s calls).2 ≤ 1 ∧
    (∀ env msg r t d,
      Effect.prCreate r t d ∈ (commitAndPush s env msg).2.1 →
      issuePR s = none ∧ anyPushFailure env.pushInfoFlags = false ∧
      r = s.upstreamNameWithOwner ∧ t = s.activeBranch ∧ d = true) := by
  constructor
  · have h := runCommitAndPush_creates_le calls s hup
    by_cases hip : issuePR s = none
    · rwa [if_pos hip] at h
    · rw [if_neg hip] at h; omega
  · intro env msg r t d hmem
    rcases commitAndPush_step_cases s env msg with
      ⟨hnomem, _, _⟩ | ⟨hnone, hpf, htrace, _, _⟩
    · exact absurd hmem (hnomem r t d)
    · rw [htrace] at hmem
      rcases List.mem_append.mp hmem with hin | hin
      · exact absurd hin (prCreate_not_mem_commitTrace s msg r t d)
      · have heq := List.mem_singleton.mp hin
        simp only [Effect.prCreate.injEq] at heq
        exact ⟨hnone, hpf, heq.1, heq.2.1, heq.2.2⟩

/-- C2 witness: three clean calls on a fresh session create exactly one
PR, satisfying the bound. -/
theorem commitAndPush_at_most_one_pr_witness :
    countPrCreates (runCommitAndPush segSession
        [(cleanCall, "r1"), (cleanCall, "r2"), (cleanCall, "r3")]).2 ≤ 1 ∧
    countPrCreates (runCommitAndPush segSession
        [(cleanCall, "r1"), (cleanCall, "r2"), (cleanCall, "r3")]).2 = 1 :=
  ⟨(commitAndPush_at_most_one_pr segSession
      [(cleanCall, "r1"), (cleanCall, "r2"), (cleanCall, "r3")] (by decide)).1,
   by decide⟩

/-- C3: when the push result carries any of the REJECTED, REMOTE_REJECTED,
REMOTE_FAILURE or ERROR flags, `commitAndPush` returns false, the session
state is unchanged, and its trace (save, stage, commit, optional rebase,
push) contains no pr create command. -/
theorem commitAndPush_push_failure_no_pr (s : SessionState) (env : CallEnv)
    (msg : String) (hseg : s.hasSegmentationNode = true)
    (hsave : env.saveSucceeds = true)
    (hfail : anyPushFailure env.pushInfoFlags = true) :
    commitAndPush s env msg = (s, commitTrace s msg, false) ∧
    (∀ r t d, Effect.prCreate r t d ∉ commitTrace s msg) := by
  constructor
  · simp [commitAndPush, hseg, hsave, hfail]
  · exact prCreate_not_mem_commitTrace s msg

/-- C3 witness: a push whose only PushInfo entry carries the REJECTED bit
makes `commitAndPush` fail without touching the PR list. -/
theorem commitAndPush_push_failure_no_pr_witness :
    commitAndPush segSession rejectedCall "update segmentation" =
      (segSession, commitTrace segSession "update segmentation", false) :=
  (commitAndPush_push_failure_no_pr segSession rejectedCall
    "update segmentation" rfl rfl (by decide)).1

/-- C10: when no segmentation artifact is active or saving it fails,
`commitAndPush` returns false with the session state unchanged, and the
only effect possibly performed is the save attempt itself: nothing is
staged, committed, pushed, and no PR is created. -/
theorem commitAndPush_early_failure_no_git_ops (s : SessionState)
    (env : CallEnv) (msg : String)
    (h : s.hasSegmentationNode = false ∨ env.saveSucceeds = false) :
    (commitAndPush s env msg).1 = s ∧
    (commitAndPush s env msg).2.2 = false ∧
    ∀ e ∈ (commitAndPush s env msg).2.1, e = Effect.saveNode := by
  rcases h with h | h
  · refine ⟨?_, ?_, ?_⟩ <;> simp [commitAndPush, h]
  · by_cases h1 : s.hasSegmentationNode = false
    · refine ⟨?_, ?_, ?_⟩ <;> simp [commitAndPush, h1]
    · refine ⟨?_, ?_, ?_⟩ <;> simp [commitAndPush, h1, h]

/-- C10 witness: a failing segmentation save leaves the session unchanged
and returns false. -/
theorem commitAndPush_early_failure_no_git_ops_witness :
    (commitAndPush segSession failedSaveCall "wip").1 = segSession ∧
    (commitAndPush segSession failedSaveCall "wip").2.2 = false :=
  ⟨(commitAndPush_early_failure_no_git_ops segSession failedSaveCall "wip"
      (Or.inr rfl)).1,
   (commitAndPush_early_failure_no_git_ops segSession failedSaveCall "wip"
      (Or.inr rfl)).2.1⟩

end MorphoDepot
